import Mathlib

/-!
Verification development for the HAAD hydrogenation plugin
(src/plugin/HAADPlugin.py).

Shallow embedding conventions:
* Python text lines are modelled as lists of characters (abbrev Line).
* Python exceptions are modelled with an error type PyErr threaded through
  Except: ValueError from int(...), IndexError from list indexing, and
  NameError / UnboundLocalError from reading an unbound variable.
* Coordinates, b-factors and occupancies are rationals.  Euclidean distances
  are represented by their squares (distSq); since sqrt is monotone on
  nonnegative arguments, the source comparisons d < minD (with minD
  initialised to 10000.0) and dist > 2.0 become distSq < 10^8 and
  distSq > 4 respectively.
* Python object identity of atoms is modelled by a numeric field aid;
  an atom's back pointer atom.residue is modelled by the index resIdx of the
  owning residue inside the owning complex.  Freshly allocated objects
  (the _shallow_copy calls) receive a fresh aid from a counter in the state.
* Logs.warning is modelled by appending a structured Warning record to a log.
-/

/-! ### Python primitives -/

/-- Python exceptions relevant to this program. -/
inductive PyErr
  | nameError
  | valueError
  | indexError
  deriving DecidableEq, Repr

/-- A text line, as produced by readlines (including any trailing newline). -/
abbrev Line := List Char

/-- Python int(c) for a one-character string: the digit value for an ASCII
digit, a ValueError otherwise. -/
def pyIntChar (c : Char) : Except PyErr Int :=
  if c.isDigit then .ok ((c.toNat : Int) - 48) else .error .valueError

/-- Python slice s[a:b] with nonnegative bounds. -/
def pySlice (l : Line) (a b : Nat) : Line :=
  (l.take b).drop a

/-- Replace the element at position k (no-op when out of range), modelling an
in-place update of a Python list element or of a field of the k-th object. -/
def modifyAt : List α → Nat → (α → α) → List α
  | [], _, _ => []
  | a :: as, 0, f => f a :: as
  | a :: as, k + 1, f => a :: modifyAt as k f

deriving instance DecidableEq for Except

/-! ### Position keys (get_position_key, lines 135-146) -/

/-- Python round(q, 4): round half to even at four decimal places.  The result
is the nearest multiple of 1/10000, ties going to the even multiple. -/
def roundHalfEven (q : ℚ) : ℤ :=
  if q - ⌊q⌋ < 1/2 then ⌊q⌋
  else if 1/2 < q - ⌊q⌋ then ⌊q⌋ + 1
  else if ⌊q⌋ % 2 = 0 then ⌊q⌋ else ⌊q⌋ + 1

/-- Python round(x, 4) on a coordinate. -/
def pyRound4 (x : ℚ) : ℚ :=
  (roundHalfEven (x * 10000) : ℚ) / 10000

/-- Python int(q): truncation toward zero. -/
def pyTrunc (q : ℚ) : ℤ :=
  if q < 0 then -⌊-q⌋ else ⌊q⌋

/-- One coordinate of get_position_key: int(50 * round(x, 4)). -/
def keyCoord (x : ℚ) : ℤ :=
  pyTrunc (50 * pyRound4 x)

/-! ### Structure model (atoms, bonds, residues, complexes) -/

/-- A 3-D position. -/
structure Pos where
  x : ℚ
  y : ℚ
  z : ℚ
  deriving DecidableEq, Repr

/-- Squared Euclidean distance between two positions. -/
def distSq (p q : Pos) : ℚ :=
  (p.x - q.x) * (p.x - q.x) + (p.y - q.y) * (p.y - q.y) +
    (p.z - q.z) * (p.z - q.z)

/-- An atom of the structure model.  aid models Python object identity,
resIdx models the atom.residue back pointer (index of the owning residue in
the owning complex). -/
structure Atom where
  aid : Nat
  serial : Nat
  symbol : String
  position : Pos
  displayMode : Nat
  isHet : Bool
  selected : Bool
  bfactor : ℚ
  occupancy : ℚ
  resIdx : Nat
  deriving DecidableEq, Repr

/-- Bond kinds; only CovalentSingle is used by the plugin. -/
inductive BondKind
  | covalentSingle
  deriving DecidableEq, Repr

/-- A bond; endpoints are stored as atom identities (object references). -/
structure Bond where
  kind : BondKind
  atom1 : Nat
  atom2 : Nat
  deriving DecidableEq, Repr

/-- A residue owns a list of atoms and a list of bonds. -/
structure Residue where
  atoms : List Atom
  bonds : List Bond
  deriving DecidableEq, Repr

/-- A complex (source name Complex) is its list of residues (the chain level plays no role in the
merge and is flattened away). -/
abbrev MolComplex := List Residue

/-- The atoms of a complex in iteration order (complex.atoms). -/
def atomsOf : MolComplex → List Atom
  | [] => []
  | r :: rs => r.atoms ++ atomsOf rs

/-- A position key: a triple of integers. -/
abbrev PosKey := ℤ × ℤ × ℤ

/-- get_position_key (lines 135-146): coordinates rounded to 4 decimals,
scaled by 50, truncated to integers. -/
def get_position_key (a : Atom) : PosKey :=
  (keyCoord a.position.x, keyCoord a.position.y, keyCoord a.position.z)

/-- The atom_by_position dictionary (lines 45-48), as an association list with
most recent insertion first, so lookup realises last-write-wins. -/
def buildIndex (c : MolComplex) : List (PosKey × Atom) :=
  (atomsOf c).foldl (fun m a => (get_position_key a, a) :: m) []

/-- Dictionary lookup in the position index. -/
def lookupIndex (idx : List (PosKey × Atom)) (k : PosKey) : Option Atom :=
  (idx.find? fun p => decide (p.1 = k)).map (·.2)

/-- The mutation h_atom.symbol = "H" (line 78). -/
def setSymbolH (a : Atom) : Atom :=
  { a with symbol := "H" }

/-- Modify the k-th atom of a complex in flattened iteration order (writing
through the alias atoms[id] into the complex). -/
def modifyFlat : MolComplex → Nat → (Atom → Atom) → MolComplex
  | [], _, _ => []
  | r :: rs, k, f =>
    if k < r.atoms.length then { r with atoms := modifyAt r.atoms k f } :: rs
    else r :: modifyFlat rs (k - r.atoms.length) f

/-- get_closest_heavy_atom_in_residue (lines 124-133), with squared
distances: scan atom.residue.atoms, keeping the first-seen strictly closer
non-self non-hydrogen atom; minD = 10000.0 becomes minD squared = 10^8. -/
def get_closest_heavy_atom_in_residue (c : MolComplex) (atom : Atom) :
    Option Atom × ℚ :=
  (c.getD atom.resIdx ⟨[], []⟩).atoms.foldl
    (fun acc a =>
      if a.aid ≠ atom.aid ∧ a.symbol ≠ "H" ∧
          distSq a.position atom.position < acc.2 then
        (some a, distSq a.position atom.position)
      else acc)
    (none, 100000000)

/-- add_bond (lines 116-122): create a CovalentSingle bond between the two
atoms and append it to atom2's residue; returns the bond and the updated
complex. -/
def add_bond (c : MolComplex) (atom1 atom2 : Atom) : Bond × MolComplex :=
  let new_bond : Bond := ⟨BondKind.covalentSingle, atom1.aid, atom2.aid⟩
  (new_bond, modifyAt c atom2.resIdx fun r => { r with bonds := r.bonds ++ [new_bond] })

/-- A Logs.warning record (line 94): H {serial} bonded with unknown atom
{symbol} at {position}. -/
structure Warning where
  hSerial : Nat
  symbol : String
  position : Pos
  deriving DecidableEq, Repr

/-- The state acted on by match_and_update: the original complex, its
position index, the deserialized result complex, the emitted warnings, and a
counter supplying identities for freshly allocated objects. -/
structure MergeState where
  orig : MolComplex
  index : List (PosKey × Atom)
  result : MolComplex
  log : List Warning
  nextAid : Nat
  deriving DecidableEq, Repr

/-- One iteration of the loop of match_and_update (lines 76-114) for a single
hydrogen index. -/
def processHydrogen (st : MergeState) (id : Nat) : Except PyErr MergeState :=
  match (atomsOf st.result)[id]? with
  | none => .error .indexError
  | some a0 =>
    let h_atom := setSymbolH a0
    let result1 := modifyFlat st.result id setSymbolH
    match get_closest_heavy_atom_in_residue result1 h_atom with
    | (none, _) => .ok { st with result := result1 }
    | (some bonded, d2) =>
      if d2 > 4 then .ok { st with result := result1 }
      else
        let bc := add_bond result1 h_atom bonded
        match lookupIndex st.index (get_position_key bonded) with
        | none =>
          .ok { st with
                result := bc.2,
                log := st.log ++ [⟨h_atom.serial, bonded.symbol, bonded.position⟩] }
        | some src =>
          let new_atom : Atom :=
            { h_atom with
              aid := st.nextAid, displayMode := src.displayMode,
              isHet := src.isHet, selected := src.selected,
              bfactor := src.bfactor, occupancy := src.occupancy,
              resIdx := src.resIdx }
          let new_bond : Bond := ⟨bc.1.kind, src.aid, new_atom.aid⟩
          .ok { st with
                orig := modifyAt st.orig src.resIdx fun r =>
                  { r with
                    atoms := r.atoms ++ [new_atom],
                    bonds := r.bonds ++ [new_bond] },
                result := bc.2,
                nextAid := st.nextAid + 1 }

/-- match_and_update (lines 64-114): process each hydrogen index in order; a
Python exception aborts the whole loop. -/
def match_and_update : MergeState → List Nat → Except PyErr MergeState
  | st, [] => .ok st
  | st, id :: rest => do
    match_and_update (← processHydrogen st id) rest

/-! ### The status-column test shared by call_HAAD and fix_haad_chains -/

/-- The test len(line) > 56 and line[56] != " " and int(line[56]) < 2
(lines 181 and 193).  int raises ValueError on a non-digit character. -/
def statusCheck (l : Line) : Except PyErr Bool :=
  if h : 56 < l.length then
    let c := l.get ⟨56, h⟩
    if c = ' ' then .ok false
    else do
      let d ← pyIntChar c
      .ok (d < 2)
  else .ok false

/-! ### Chain repair pass (fix_haad_chains, lines 187-209) -/

/-- The test len(lines[i]) > 22 and lines[i][21] != " " used by the backward
scan (lines 197-199). -/
def chainBearing (l : Line) : Bool :=
  decide (22 < l.length) && (l.getD 21 ' ' != ' ')

/-- The backward scan for i in range(id - 1, -1, -1) (lines 196-201): the
nearest preceding line with a non-blank chain column, if any. -/
def findPrevChain (lines : List Line) (id : Nat) : Option Line :=
  ((lines.take id).reverse).find? chainBearing

/-- The rewrite of line 204:
output_lines[id][:21] + l[21] + output_lines[id][22:-2] followed by the fixed
trailing text; cur[22:-2] is cur.drop 22 with its last two characters
removed. -/
def rewriteLine (cur l : Line) : Line :=
  cur.take 21 ++ [l.getD 21 ' '] ++ ((cur.drop 22).dropLast).dropLast ++
    ("1.00 1.00            H \n").toList

/-- Loop state of fix_haad_chains: the output lines being built, and the
Python local variable l, which is unbound (none) until the backward scan
first succeeds and keeps its old value when a later scan fails. -/
structure FixState where
  out : List Line
  lVar : Option Line
  deriving DecidableEq, Repr

/-- One iteration of the outer loop of fix_haad_chains (lines 192-205) at
line index id.  Reading l while it is unbound raises (UnboundLocalError,
modelled as nameError). -/
def fixStep (lines : List Line) (st : FixState) (id : Nat) :
    Except PyErr FixState := do
  let line := lines.getD id []
  let b ← statusCheck line
  if b then
    if 0 < id then
      match (findPrevChain lines id).orElse (fun _ => st.lVar) with
      | none => .error .nameError
      | some l =>
        if pySlice line 17 21 = pySlice l 17 21 ∧
            pySlice line 23 27 = pySlice l 23 27 then
          .ok ⟨modifyAt st.out id (fun cur => rewriteLine cur l),
               (findPrevChain lines id).orElse (fun _ => st.lVar)⟩
        else .ok ⟨st.out, (findPrevChain lines id).orElse (fun _ => st.lVar)⟩
    else .ok st
  else .ok st

/-- The outer loop of fix_haad_chains over the line indices. -/
def fixLoop (lines : List Line) : FixState → List Nat → Except PyErr FixState
  | st, [] => .ok st
  | st, id :: rest => do
    fixLoop lines (← fixStep lines st id) rest

/-- fix_haad_chains (lines 187-209) on the list of lines read from the file:
returns the output lines written back, or the Python exception raised. -/
def fix_haad_chains (lines : List Line) : Except PyErr (List Line) := do
  let st ← fixLoop lines ⟨lines, none⟩ (List.range lines.length)
  .ok st.out

/-! ### Hydrogen identification pass (call_HAAD, lines 176-184) -/

/-- The scan of lines 178-183 with the running counter id. -/
def hipGo : List Line → Nat → Except PyErr (List Nat)
  | [], _ => .ok []
  | l :: rest, id => do
    let b ← statusCheck l
    let tail ← hipGo rest (id + 1)
    .ok (if b then id :: tail else tail)

/-- The hydrogen identification pass: the list new_hydrogens built by
call_HAAD from the repaired output lines. -/
def identify_hydrogens (lines : List Line) : Except PyErr (List Nat) :=
  hipGo lines 0

/-- Per-line acceptance used by the specification of the identification
pass: status column present, non-blank, a single ASCII digit of value
less than 2. -/
def lineIsNewH (l : Line) : Bool :=
  if h : 56 < l.length then
    let c := l.get ⟨56, h⟩
    (c != ' ') && c.isDigit && decide ((c.toNat : Int) - 48 < 2)
  else false

/-- Modelled from the spec wording of the identification contract: the
ordered list of zero-based record indices whose status column is present,
non-blank, and holds a single ASCII digit with numeric value less than 2. -/
def hipSpec (lines : List Line) : List Nat :=
  (List.range lines.length).filter fun i =>
    match lines[i]? with
    | some l => lineIsNewH l
    | none => false

/-! ### call_HAAD (lines 157-185) and add_hydrogens (lines 38-61)

The external tool is modelled by data: each structure in a batch carries the
exit code the tool returns for it and the lines of the output file the tool
writes.  Deserialization (Complex.io.from_pdb) is an external collaborator
and is passed in as a function from lines to a complex. -/

/-- call_HAAD (lines 157-185).  On a non-zero exit code the source runs
self.send_notification(enums.NotificationTypes.error, ...) inside a
module-level function where neither self nor enums is bound, so Python
raises NameError before any notification is sent; this is modelled by
.error .nameError.  On exit code 0 it repairs the chains, deserializes the
repaired file, and identifies the new hydrogens. -/
def call_HAAD (deser : List Line → MolComplex) (exitCode : ℤ)
    (outLines : List Line) : Except PyErr (MolComplex × List Nat) :=
  if exitCode ≠ 0 then .error .nameError
  else do
    let repaired ← fix_haad_chains outLines
    let ids ← identify_hydrogens repaired
    .ok (deser repaired, ids)

/-- add_hydrogens (lines 38-61): for each complex of the batch, build the
position index, run the tool, and merge; a Python exception raised for one
complex propagates and aborts the whole batch loop.  Each batch item is a
complex together with the tool's exit code and output lines for it. -/
def add_hydrogens (deser : List Line → MolComplex)
    (items : List (MolComplex × ℤ × List Line)) :
    Except PyErr (List MolComplex) :=
  items.mapM fun item => do
    let r ← call_HAAD deser item.2.1 item.2.2
    let st ← match_and_update ⟨item.1, buildIndex item.1, r.1, [], 0⟩ r.2
    .ok st.orig

/-! ### Extension relation used to state frame effects on the original
complex -/

/-- A residue extends another when both its atom list and its bond list are
obtained by appending (so every previously present atom and bond is kept,
unchanged and at its old index). -/
def residueExtends (r r' : Residue) : Prop :=
  (∃ t, r'.atoms = r.atoms ++ t) ∧ (∃ t, r'.bonds = r.bonds ++ t)

/-- A complex extends another when it has the same residues, each extended
residue-wise. -/
def complexExtends (ca cb : MolComplex) : Prop :=
  ca.length = cb.length ∧
  ∀ (i : Nat) r r', ca[i]? = some r → cb[i]? = some r' → residueExtends r r'

/-! ### Concrete inputs used by the witnesses -/

/-- A heavy atom of the original complex, with distinctive metadata. -/
def atomO : Atom := ⟨0, 1, "O", ⟨0, 0, 0⟩, 3, true, true, 7/2, 1/4, 0⟩

/-- An original complex of one residue holding atomO. -/
def origEx : MolComplex := [⟨[atomO], []⟩]

/-- A heavy partner atom of the deserialized result complex at a given
position. -/
def partnerC (p : Pos) : Atom := ⟨10, 2, "C", p, 0, false, false, 0, 0, 0⟩

/-- A deserialized hydrogen with the symbol the external tool wrote. -/
def hAtomEx (aid : Nat) (x : ℚ) : Atom :=
  ⟨aid, 3, "HX", ⟨x, 0, 0⟩, 0, false, false, 0, 0, 0⟩

/-- A result complex whose hydrogen sits at abscissa x next to a partner at
the origin (whose position key resolves to atomO). -/
def resultEx (x : ℚ) : MolComplex := [⟨[partnerC ⟨0, 0, 0⟩, hAtomEx 11 x], []⟩]

/-- Merge state for the resultEx scenarios. -/
def stEx (x : ℚ) : MergeState := ⟨origEx, buildIndex origEx, resultEx x, [], 100⟩

/-- A result complex whose partner sits at (5,0,0), whose position key is
absent from the index of origEx; the hydrogen is 1.99 away from it. -/
def resultMiss : MolComplex :=
  [⟨[partnerC ⟨5, 0, 0⟩, hAtomEx 11 (699/100)], []⟩]

/-- Merge state for the key-miss scenario. -/
def stMiss : MergeState := ⟨origEx, buildIndex origEx, resultMiss, [], 100⟩

/-- Merge state whose only result atom is a lone hydrogen, so the
bonding-partner search finds nothing. -/
def stLone : MergeState := ⟨origEx, [], [⟨[hAtomEx 7 0], []⟩], [], 50⟩

/-- A record line of length 57 whose status column holds the given
character. -/
def statusLine (c : Char) : Line := List.replicate 56 'x' ++ [c]

/-- A chain-bearing record line: residue name RESN (columns 17-20), chain A
(column 21), residue sequence number 1234 (columns 23-26). -/
def exChainLine : Line := ("xxxxxxxxxxxxxxxxxRESNAq1234").toList

/-- A new-hydrogen line with a blank chain column and the same residue name
and sequence number as exChainLine. -/
def exHLine : Line :=
  ("xxxxxxxxxxxxxxxxxRESN q1234").toList ++ List.replicate 29 'x' ++ ['1', '\n']

/-- A new-hydrogen line whose residue name differs from exChainLine's. -/
def exHLineMis : Line :=
  ("xxxxxxxxxxxxxxxxxRESX q1234").toList ++ List.replicate 29 'x' ++ ['1', '\n']

/-- The deserializer used by the batch example; its output is irrelevant to
the control flow under test. -/
def deserNil : List Line → MolComplex := fun _ => []

/-! ### Supporting lemmas about modifyAt, modifyFlat and atomsOf -/

theorem modifyAt_length (l : List α) (k : Nat) (f : α → α) :
    (modifyAt l k f).length = l.length := by
  induction l generalizing k with
  | nil => rfl
  | cons a as ih =>
    cases k with
    | zero => rfl
    | succ k => simp [modifyAt, ih]

theorem getElem?_modifyAt (l : List α) (k i : Nat) (f : α → α) :
    (modifyAt l k f)[i]? = if i = k then (l[i]?).map f else l[i]? := by
  induction l generalizing k i with
  | nil => simp [modifyAt]
  | cons a as ih =>
    cases k with
    | zero =>
      cases i with
      | zero => simp [modifyAt]
      | succ i => simp [modifyAt]
    | succ k =>
      cases i with
      | zero => simp [modifyAt]
      | succ i => simpa [modifyAt] using ih k i

theorem modifyAt_append_left (as bs : List α) (k : Nat) (f : α → α)
    (h : k < as.length) :
    modifyAt (as ++ bs) k f = modifyAt as k f ++ bs := by
  induction as generalizing k with
  | nil => exact absurd h (Nat.not_lt_zero k)
  | cons a as ih =>
    cases k with
    | zero => simp [modifyAt]
    | succ k => simp [modifyAt, ih k (by simpa using h)]

theorem modifyAt_append_right (as bs : List α) (k : Nat) (f : α → α)
    (h : as.length ≤ k) :
    modifyAt (as ++ bs) k f = as ++ modifyAt bs (k - as.length) f := by
  induction as generalizing k with
  | nil => simp [modifyAt]
  | cons a as ih =>
    cases k with
    | zero => simp at h
    | succ k => simp [modifyAt, ih k (by simpa using h)]

theorem atomsOf_modifyFlat (cs : MolComplex) (k : Nat) (f : Atom → Atom) :
    atomsOf (modifyFlat cs k f) = modifyAt (atomsOf cs) k f := by
  induction cs generalizing k with
  | nil => rfl
  | cons r rs ih =>
    by_cases h : k < r.atoms.length
    · simp [modifyFlat, h, atomsOf, modifyAt_append_left _ _ _ _ h]
    · simp [modifyFlat, h, atomsOf, ih,
        modifyAt_append_right _ _ _ _ (Nat.le_of_not_lt h)]

theorem modifyFlat_length (cs : MolComplex) (k : Nat) (f : Atom → Atom) :
    (modifyFlat cs k f).length = cs.length := by
  induction cs generalizing k with
  | nil => rfl
  | cons r rs ih =>
    by_cases h : k < r.atoms.length <;> simp [modifyFlat, h, ih]

theorem getElem?_modifyFlat_bonds (cs : MolComplex) (k : Nat) (f : Atom → Atom)
    (i : Nat) :
    ((modifyFlat cs k f)[i]?).map Residue.bonds = (cs[i]?).map Residue.bonds := by
  induction cs generalizing k i with
  | nil => rfl
  | cons r rs ih =>
    by_cases h : k < r.atoms.length
    · cases i <;> simp [modifyFlat, h]
    · cases i <;> simp [modifyFlat, h, ih]

theorem atomsOf_modifyAt (cs : MolComplex) (i : Nat) (g : Residue → Residue)
    (hg : ∀ r, (g r).atoms = r.atoms) :
    atomsOf (modifyAt cs i g) = atomsOf cs := by
  induction cs generalizing i with
  | nil => rfl
  | cons r rs ih =>
    cases i with
    | zero => simp [modifyAt, atomsOf, hg]
    | succ i => simp [modifyAt, atomsOf, ih]

/-! ### Supporting lemmas about the extension relation -/

theorem residueExtends_refl (r : Residue) : residueExtends r r :=
  ⟨⟨[], by simp⟩, ⟨[], by simp⟩⟩

theorem residueExtends_trans {r1 r2 r3 : Residue}
    (h1 : residueExtends r1 r2) (h2 : residueExtends r2 r3) :
    residueExtends r1 r3 := by
  obtain ⟨⟨ta, ha⟩, ⟨tb, hb⟩⟩ := h1
  obtain ⟨⟨ta', ha'⟩, ⟨tb', hb'⟩⟩ := h2
  exact ⟨⟨ta ++ ta', by simp [ha', ha]⟩, ⟨tb ++ tb', by simp [hb', hb]⟩⟩

theorem complexExtends_refl (cs : MolComplex) : complexExtends cs cs := by
  refine ⟨rfl, fun i r r' h1 h2 => ?_⟩
  rw [h1] at h2
  cases h2
  exact residueExtends_refl r

theorem complexExtends_trans {ca cb cc : MolComplex}
    (h1 : complexExtends ca cb) (h2 : complexExtends cb cc) :
    complexExtends ca cc := by
  refine ⟨h1.1.trans h2.1, fun i r r' ha hc => ?_⟩
  have hi : i < cb.length := by
    rw [← h1.1]
    exact (List.getElem?_eq_some.mp ha).1
  have hb : cb[i]? = some cb[i] := List.getElem?_eq_getElem hi
  exact residueExtends_trans (h1.2 i r _ ha hb) (h2.2 i _ r' hb hc)

theorem complexExtends_modifyAt_append (cs : MolComplex) (i : Nat)
    (na : List Atom) (nb : List Bond) :
    complexExtends cs (modifyAt cs i fun r =>
      { r with atoms := r.atoms ++ na, bonds := r.bonds ++ nb }) := by
  refine ⟨(modifyAt_length cs i _).symm, fun j r r' h1 h2 => ?_⟩
  rw [getElem?_modifyAt] at h2
  by_cases hj : j = i
  · rw [if_pos hj, h1, Option.map_some'] at h2
    cases h2
    exact ⟨⟨na, rfl⟩, ⟨nb, rfl⟩⟩
  · rw [if_neg hj, h1] at h2
    cases h2
    exact residueExtends_refl r

/-! ### Supporting lemmas about processHydrogen and match_and_update -/

theorem processHydrogen_ok_atomsOf {st : MergeState} {id : Nat}
    {st' : MergeState} (h : processHydrogen st id = .ok st') :
    atomsOf st'.result = modifyAt (atomsOf st.result) id setSymbolH := by
  unfold processHydrogen at h
  split at h
  · exact absurd h (by simp)
  · dsimp only at h
    split at h
    · cases h
      exact atomsOf_modifyFlat st.result id setSymbolH
    · split at h
      · cases h
        exact atomsOf_modifyFlat st.result id setSymbolH
      · split at h
        · cases h
          simp only [add_bond]
          rw [atomsOf_modifyAt]
          · exact atomsOf_modifyFlat st.result id setSymbolH
          · intro r
            rfl
        · cases h
          simp only [add_bond]
          rw [atomsOf_modifyAt]
          · exact atomsOf_modifyFlat st.result id setSymbolH
          · intro r
            rfl

theorem setSymbolH_idem (a : Atom) : setSymbolH (setSymbolH a) = setSymbolH a :=
  rfl

theorem processHydrogen_ok_origExtends {st : MergeState} {id : Nat}
    {st' : MergeState} (h : processHydrogen st id = .ok st') :
    complexExtends st.orig st'.orig := by
  unfold processHydrogen at h
  split at h
  · exact absurd h (by simp)
  · dsimp only at h
    split at h
    · cases h
      exact complexExtends_refl st.orig
    · split at h
      · cases h
        exact complexExtends_refl st.orig
      · split at h
        · cases h
          exact complexExtends_refl st.orig
        · cases h
          exact complexExtends_modifyAt_append st.orig _ _ _

theorem match_and_update_cons_ok {st : MergeState} {id : Nat}
    {rest : List Nat} {st' : MergeState}
    (h : match_and_update st (id :: rest) = .ok st') :
    ∃ st1, processHydrogen st id = .ok st1 ∧
      match_and_update st1 rest = .ok st' := by
  cases hp : processHydrogen st id with
  | error e =>
    rw [match_and_update, hp] at h
    exact absurd h (by simp [Bind.bind, Except.bind])
  | ok st1 =>
    rw [match_and_update, hp] at h
    exact ⟨st1, rfl, by simpa [Bind.bind, Except.bind] using h⟩

theorem match_and_update_ok_extends {ids : List Nat} :
    ∀ {st st' : MergeState}, match_and_update st ids = .ok st' →
      complexExtends st.orig st'.orig := by
  induction ids with
  | nil =>
    intro st st' h
    rw [match_and_update] at h
    cases h
    exact complexExtends_refl st.orig
  | cons id rest ih =>
    intro st st' h
    obtain ⟨st1, hp, hrest⟩ := match_and_update_cons_ok h
    exact complexExtends_trans (processHydrogen_ok_origExtends hp) (ih hrest)

theorem match_and_update_ok_atoms {ids : List Nat} :
    ∀ {st st' : MergeState}, match_and_update st ids = .ok st' → ∀ k : Nat,
      (atomsOf st'.result)[k]? =
        ((atomsOf st.result)[k]?).map fun a =>
          if k ∈ ids then setSymbolH a else a := by
  induction ids with
  | nil =>
    intro st st' h k
    rw [match_and_update] at h
    cases h
    simp
  | cons id rest ih =>
    intro st st' h k
    obtain ⟨st1, hp, hrest⟩ := match_and_update_cons_ok h
    have h1 := processHydrogen_ok_atomsOf hp
    have h2 := ih hrest k
    rw [h2, h1, getElem?_modifyAt]
    by_cases hk : k = id
    · subst hk
      rw [if_pos rfl]
      cases hx : (atomsOf st.result)[k]? with
      | none => simp
      | some a => simp [setSymbolH_idem]
    · rw [if_neg hk]
      cases hx : (atomsOf st.result)[k]? with
      | none => simp
      | some a => simp [List.mem_cons, hk]

theorem processHydrogen_no_candidate {st : MergeState} {id : Nat} {a0 : Atom}
    {d : ℚ} (h0 : (atomsOf st.result)[id]? = some a0)
    (hc : get_closest_heavy_atom_in_residue (modifyFlat st.result id setSymbolH)
      (setSymbolH a0) = (none, d)) :
    processHydrogen st id = .ok { st with result := modifyFlat st.result id setSymbolH } := by
  unfold processHydrogen
  rw [h0]
  dsimp only
  rw [hc]

theorem processHydrogen_too_far {st : MergeState} {id : Nat} {a0 b : Atom}
    {d2 : ℚ} (h0 : (atomsOf st.result)[id]? = some a0)
    (hc : get_closest_heavy_atom_in_residue (modifyFlat st.result id setSymbolH)
      (setSymbolH a0) = (some b, d2))
    (hd : d2 > 4) :
    processHydrogen st id = .ok { st with result := modifyFlat st.result id setSymbolH } := by
  unfold processHydrogen
  rw [h0]
  dsimp only
  rw [hc]
  dsimp only
  rw [if_pos hd]

theorem processHydrogen_key_miss {st : MergeState} {id : Nat} {a0 b : Atom}
    {d2 : ℚ} (h0 : (atomsOf st.result)[id]? = some a0)
    (hc : get_closest_heavy_atom_in_residue (modifyFlat st.result id setSymbolH)
      (setSymbolH a0) = (some b, d2))
    (hd : ¬ d2 > 4)
    (hk : lookupIndex st.index (get_position_key b) = none) :
    processHydrogen st id = .ok
      { st with
        result := modifyAt (modifyFlat st.result id setSymbolH) b.resIdx fun r =>
          { r with bonds := r.bonds ++ [⟨BondKind.covalentSingle, a0.aid, b.aid⟩] },
        log := st.log ++ [⟨a0.serial, b.symbol, b.position⟩] } := by
  unfold processHydrogen
  rw [h0]
  dsimp only
  rw [hc]
  dsimp only
  rw [if_neg hd]
  dsimp only [add_bond]
  rw [hk]
  simp [setSymbolH]

theorem processHydrogen_accept {st : MergeState} {id : Nat} {a0 b src : Atom}
    {d2 : ℚ} (h0 : (atomsOf st.result)[id]? = some a0)
    (hc : get_closest_heavy_atom_in_residue (modifyFlat st.result id setSymbolH)
      (setSymbolH a0) = (some b, d2))
    (hd : ¬ d2 > 4)
    (hk : lookupIndex st.index (get_position_key b) = some src) :
    processHydrogen st id = .ok
      { st with
        orig := modifyAt st.orig src.resIdx fun r =>
          { r with
            atoms := r.atoms ++ [{ setSymbolH a0 with
              aid := st.nextAid, displayMode := src.displayMode,
              isHet := src.isHet, selected := src.selected,
              bfactor := src.bfactor, occupancy := src.occupancy,
              resIdx := src.resIdx }],
            bonds := r.bonds ++ [⟨BondKind.covalentSingle, src.aid, st.nextAid⟩] },
        result := modifyAt (modifyFlat st.result id setSymbolH) b.resIdx fun r =>
          { r with bonds := r.bonds ++ [⟨BondKind.covalentSingle, a0.aid, b.aid⟩] },
        nextAid := st.nextAid + 1 } := by
  unfold processHydrogen
  rw [h0]
  dsimp only
  rw [hc]
  dsimp only
  rw [if_neg hd]
  dsimp only [add_bond]
  rw [hk]
  simp [setSymbolH]

/-! ### Supporting lemmas about the hydrogen identification pass -/

theorem statusCheck_of_digit {l : Line}
    (hdig : ∀ h : 56 < l.length, l.get ⟨56, h⟩ ≠ ' ' → (l.get ⟨56, h⟩).isDigit) :
    statusCheck l = .ok (lineIsNewH l) := by
  unfold statusCheck lineIsNewH
  by_cases h56 : 56 < l.length
  · rw [dif_pos h56, dif_pos h56]
    by_cases hc : l.get ⟨56, h56⟩ = ' '
    · rw [if_pos hc]
      rw [List.get_eq_getElem] at hc
      simp [hc]
    · rw [if_neg hc]
      have hd := hdig h56 hc
      rw [List.get_eq_getElem] at hc hd
      simp [pyIntChar, hd, hc, Bind.bind, Except.bind]
  · rw [dif_neg h56, dif_neg h56]

theorem hipSpec_cons (l : Line) (rest : List Line) :
    hipSpec (l :: rest) =
      (if lineIsNewH l then [0] else []) ++ (hipSpec rest).map (· + 1) := by
  unfold hipSpec
  rw [List.length_cons, List.range_succ_eq_map, List.filter_cons]
  simp only [List.getElem?_cons_zero, List.filter_map]
  have hfil : List.filter
      ((fun i => match (l :: rest)[i]? with
        | some l => lineIsNewH l
        | none => false) ∘ Nat.succ) (List.range rest.length) =
      List.filter (fun i => match rest[i]? with
        | some l => lineIsNewH l
        | none => false) (List.range rest.length) := by
    apply List.filter_congr
    intro i _
    simp [Function.comp]
  rw [hfil]
  have hmap : ∀ xs : List Nat, List.map Nat.succ xs = List.map (· + 1) xs := by
    intro xs
    apply List.map_congr_left
    intro i _
    exact Nat.succ_eq_add_one i
  rw [hmap]
  by_cases hb : lineIsNewH l <;> simp [hb]

theorem hipGo_of_digit {ls : List Line}
    (hdig : ∀ l ∈ ls, ∀ h : 56 < l.length,
      l.get ⟨56, h⟩ ≠ ' ' → (l.get ⟨56, h⟩).isDigit) :
    ∀ k, hipGo ls k = .ok ((hipSpec ls).map (· + k)) := by
  induction ls with
  | nil => intro k; rfl
  | cons l rest ih =>
    intro k
    rw [hipGo, statusCheck_of_digit (hdig l (List.mem_cons_self l rest)),
      ih (fun l' hl' => hdig l' (List.mem_cons_of_mem _ hl')) (k + 1),
      hipSpec_cons]
    simp only [Bind.bind, Except.bind]
    by_cases hb : lineIsNewH l
    · simp only [hb, if_pos, List.map_append, List.map_map]
      simp [Function.comp, Nat.add_assoc, Nat.add_comm 1 k]
    · simp only [hb, List.map_append, List.map_map]
      simp [Function.comp, Nat.add_assoc, Nat.add_comm 1 k]

/-! ### Supporting lemmas about the chain repair pass -/

theorem fixStep_out_ne {lines : List Line} {st st' : FixState} {j : Nat}
    (h : fixStep lines st j = .ok st') (k : Nat) (hk : k ≠ j) :
    st'.out[k]? = st.out[k]? := by
  unfold fixStep at h
  dsimp only at h
  cases hs : statusCheck (lines.getD j []) with
  | error e =>
    rw [hs] at h
    exact absurd h (by simp [Bind.bind, Except.bind])
  | ok b =>
    rw [hs] at h
    simp only [Bind.bind, Except.bind] at h
    split at h
    · split at h
      · split at h
        · exact absurd h (by simp)
        · split at h
          · cases h
            dsimp only
            rw [getElem?_modifyAt, if_neg hk]
          · cases h
            rfl
      · cases h
        rfl
    · cases h
      rfl

theorem fixLoop_append (lines : List Line) (xs : List Nat) :
    ∀ (ys : List Nat) (st : FixState),
      fixLoop lines st (xs ++ ys) =
        match fixLoop lines st xs with
        | .ok st1 => fixLoop lines st1 ys
        | .error e => .error e := by
  induction xs with
  | nil => intro ys st; rfl
  | cons x xs ih =>
    intro ys st
    rw [List.cons_append, fixLoop, fixLoop]
    cases hx : fixStep lines st x with
    | error e => simp [Bind.bind, Except.bind]
    | ok st1 => simp [Bind.bind, Except.bind, ih ys st1]

theorem fixLoop_untouched {lines : List Line} {js : List Nat} :
    ∀ {st st' : FixState}, fixLoop lines st js = .ok st' →
      ∀ k : Nat, (∀ j ∈ js, j ≠ k) → st'.out[k]? = st.out[k]? := by
  induction js with
  | nil =>
    intro st st' h k _
    rw [fixLoop] at h
    cases h
    rfl
  | cons j js ih =>
    intro st st' h k hks
    rw [fixLoop] at h
    cases hx : fixStep lines st j with
    | error e =>
      rw [hx] at h
      exact absurd h (by simp [Bind.bind, Except.bind])
    | ok st1 =>
      rw [hx] at h
      simp only [Bind.bind, Except.bind] at h
      rw [ih h k fun j' hj' => hks j' (List.mem_cons_of_mem _ hj'),
        fixStep_out_ne hx k (fun hkj => (hks j (List.mem_cons_self j js)) hkj.symm)]

theorem fixStep_repair {lines : List Line} {id : Nat} {line l : Line}
    (st : FixState)
    (hline : lines[id]? = some line)
    (hpos : 0 < id)
    (hstat : statusCheck line = .ok true)
    (hprev : findPrevChain lines id = some l) :
    fixStep lines st id = .ok
      ⟨if pySlice line 17 21 = pySlice l 17 21 ∧
          pySlice line 23 27 = pySlice l 23 27 then
        modifyAt st.out id fun cur => rewriteLine cur l
      else st.out, some l⟩ := by
  unfold fixStep
  have hgd : lines.getD id [] = line := by
    rw [List.getD_eq_getElem?_getD, hline]
    rfl
  rw [hgd]
  dsimp only
  rw [hstat, hprev]
  simp only [Bind.bind, Except.bind, if_pos hpos, Option.orElse, if_true]
  by_cases hres : pySlice line 17 21 = pySlice l 17 21 ∧
      pySlice line 23 27 = pySlice l 23 27
  · rw [if_pos hres, if_pos hres]
  · rw [if_neg hres, if_neg hres]

/-! ### Supporting lemma for the position-key quantization analysis -/

theorem pyTrunc_close (q : ℚ) : |(pyTrunc q : ℚ) - q| < 1 := by
  unfold pyTrunc
  by_cases h : q < 0
  · rw [if_pos h]
    have h1 : ((⌊-q⌋ : ℤ) : ℚ) ≤ -q := Int.floor_le (-q)
    have h2 : -q < ⌊-q⌋ + 1 := Int.lt_floor_add_one (-q)
    rw [abs_of_nonneg (by push_cast; linarith)]
    push_cast
    linarith
  · rw [if_neg h]
    have h1 : ((⌊q⌋ : ℤ) : ℚ) ≤ q := Int.floor_le q
    have h2 : q < ⌊q⌋ + 1 := Int.lt_floor_add_one q
    rw [abs_of_nonpos (by linarith)]
    linarith

/-! ### Claim C8 (position-key quantization) -/

/-- C8 counterexample: the claim as stated is false on the code.  The
coordinates 0.0199 and 0.02 differ after 4-decimal rounding by 0.0001, which
is less than 1/100 of the quantization step 1/50, yet their keys differ
(0 versus 1, because truncation splits them at the step boundary); and the
coordinates 0.018 and -0.018 differ by 0.036, more than one quantization
step, yet share the key 0 (because Python int truncates toward zero). -/
theorem keyCoord_claim_counterexample :
    |pyRound4 (199/10000) - pyRound4 (1/50)| < (1/100) * (1/50) ∧
    keyCoord (199/10000) ≠ keyCoord (1/50) ∧
    |pyRound4 (9/500) - pyRound4 (-9/500)| > 1/50 ∧
    keyCoord (9/500) = keyCoord (-9/500) :=
  ⟨by with_unfolding_all decide, by with_unfolding_all decide,
   by with_unfolding_all decide, by with_unfolding_all decide⟩

/-- C8 amended: two coordinates with equal 4-decimal roundings always map to
the same key, and two coordinates whose roundings differ by more than two
quantization steps (2/50) always map to different keys. -/
theorem keyCoord_quantization (x y : ℚ) :
    (pyRound4 x = pyRound4 y → keyCoord x = keyCoord y) ∧
    (|pyRound4 x - pyRound4 y| > 2/50 → keyCoord x ≠ keyCoord y) := by
  constructor
  · intro h
    unfold keyCoord
    rw [h]
  · intro h heq
    unfold keyCoord at heq
    have hx := pyTrunc_close (50 * pyRound4 x)
    have hy := pyTrunc_close (50 * pyRound4 y)
    rw [heq] at hx
    rw [abs_sub_comm] at hx
    have habs : |50 * pyRound4 x - 50 * pyRound4 y| < 2 := by
      calc |50 * pyRound4 x - 50 * pyRound4 y|
          = |(50 * pyRound4 x - (pyTrunc (50 * pyRound4 y) : ℚ)) +
              ((pyTrunc (50 * pyRound4 y) : ℚ) - 50 * pyRound4 y)| := by
            ring_nf
        _ ≤ |50 * pyRound4 x - (pyTrunc (50 * pyRound4 y) : ℚ)| +
              |(pyTrunc (50 * pyRound4 y) : ℚ) - 50 * pyRound4 y| := abs_add _ _
        _ < 1 + 1 := by
            exact add_lt_add hx hy
        _ = 2 := by norm_num
    have hmul : |50 * pyRound4 x - 50 * pyRound4 y| =
        50 * |pyRound4 x - pyRound4 y| := by
      rw [show 50 * pyRound4 x - 50 * pyRound4 y =
        50 * (pyRound4 x - pyRound4 y) by ring, abs_mul]
      norm_num
    rw [hmul] at habs
    linarith

/-- C8 witness: the amended theorem applied at concrete coordinates:
equal inputs share a key, and 0.02 versus 0.12 (roundings 0.1 apart, more
than 2/50) receive different keys. -/
theorem keyCoord_quantization_witness :
    keyCoord (7/10000) = keyCoord (7/10000) ∧
    |pyRound4 (1/50) - pyRound4 (3/25)| > 2/50 ∧
    keyCoord (1/50) ≠ keyCoord (3/25) :=
  ⟨(keyCoord_quantization (7/10000) (7/10000)).1 rfl,
   by with_unfolding_all decide,
   (keyCoord_quantization (1/50) (3/25)).2 (by with_unfolding_all decide)⟩

/-! ### Claim C5 (hydrogen identification pass) -/

/-- C5 counterexample: a 57-character line whose status column holds the
non-digit character A is not silently excluded; int raises a ValueError,
contradicting the claim that such lines are excluded without raising an
error. -/
theorem identify_hydrogens_nondigit_raises :
    identify_hydrogens [statusLine 'A'] = .error .valueError := by
  decide

/-- C5 amended: when every line's non-blank status column holds an ASCII
digit, the identification pass returns exactly the increasing zero-based
indices of lines of length at least 57 whose column 56 is a non-blank digit
of value less than 2 (hipSpec); a non-blank non-digit status column instead
raises a ValueError. -/
theorem identify_hydrogens_digit_exact {lines : List Line}
    (hdig : ∀ l ∈ lines, ∀ h : 56 < l.length,
      l.get ⟨56, h⟩ ≠ ' ' → (l.get ⟨56, h⟩).isDigit) :
    identify_hydrogens lines = .ok (hipSpec lines) := by
  rw [identify_hydrogens, hipGo_of_digit hdig 0]
  simp

/-- C5 witness: for status column values 1, 0, blank, 2, 9 exactly the
records with values 1 and 0 (indices 0 and 1) are identified. -/
theorem identify_hydrogens_digit_exact_witness :
    (∀ l ∈ [statusLine '1', statusLine '0', statusLine ' ',
        statusLine '2', statusLine '9'], ∀ h : 56 < l.length,
      l.get ⟨56, h⟩ ≠ ' ' → (l.get ⟨56, h⟩).isDigit) ∧
    identify_hydrogens [statusLine '1', statusLine '0', statusLine ' ',
      statusLine '2', statusLine '9'] = .ok [0, 1] :=
  ⟨by decide, (identify_hydrogens_digit_exact (by decide)).trans (by decide)⟩

/-! ### Claim C6 (chain repair guard for missing predecessors) -/

/-- C6: the first-line case is guarded (a new-hydrogen line at index 0 is
left unrepaired without error), but a new-hydrogen line at a positive index
preceded only by chain-less lines reads the never-assigned variable l,
raising UnboundLocalError (modelled as nameError) instead of leaving the
line unrepaired: the code crashes where the claim requires a clean no-op. -/
theorem fix_haad_chains_unbound_predecessor_raises :
    fix_haad_chains [statusLine '1'] = .ok [statusLine '1'] ∧
    fix_haad_chains [('R' :: 'E' :: 'M' :: 'A' :: 'R' :: 'K' :: []),
      statusLine '1'] = .error .nameError := by
  constructor
  · decide
  · decide

/-! ### Claim C4 (tool failure handling in the batch loop) -/

/-- C4: when the external tool exits non-zero for the first structure of a
batch, call_HAAD's error branch references the undefined names self and
enums, so a NameError propagates out of add_hydrogens and aborts the whole
batch: no notification is surfaced and the second structure is never
processed, contradicting the claim; the same batch without the failing first
item completes. -/
theorem add_hydrogens_tool_failure_aborts_batch :
    add_hydrogens deserNil [(origEx, 1, []), ([], 0, [])] = .error .nameError ∧
    add_hydrogens deserNil [([], 0, [])] = .ok [[]] := by
  constructor
  · decide
  · decide

/-! ### Claim C7 (chain repair rewrite) -/

/-- C7: for a new-hydrogen line at a positive index whose nearest preceding
chain-bearing line is l, if the residue name (columns 17-20) and residue
sequence number (columns 23-26) match, the output line is the rewrite that
installs l's chain character at column 21 and replaces the last two
characters with the fixed occupancy 1.00 / b-factor 1.00 / element H text;
if they do not match, the output line equals the input line unchanged. -/
theorem fix_haad_chains_repair_correct {lines out : List Line} {id : Nat}
    {line l : Line}
    (hok : fix_haad_chains lines = .ok out)
    (hline : lines[id]? = some line)
    (hpos : 0 < id)
    (hstat : statusCheck line = .ok true)
    (hprev : findPrevChain lines id = some l) :
    (pySlice line 17 21 = pySlice l 17 21 ∧
        pySlice line 23 27 = pySlice l 23 27 →
      out[id]? = some (rewriteLine line l)) ∧
    (¬ (pySlice line 17 21 = pySlice l 17 21 ∧
        pySlice line 23 27 = pySlice l 23 27) →
      out[id]? = some line) := by
  have hid : id < lines.length := (List.getElem?_eq_some.mp hline).1
  have hsplit : List.range lines.length =
      (List.range id ++ [id]) ++
        (List.range (lines.length - (id + 1))).map (fun j => (id + 1) + j) := by
    rw [← List.range_succ, ← List.range_add]
    congr 1
    omega
  unfold fix_haad_chains at hok
  cases hfl : fixLoop lines ⟨lines, none⟩ (List.range lines.length) with
  | error e =>
    rw [hfl] at hok
    exact absurd hok (by simp [Bind.bind, Except.bind])
  | ok stF =>
    rw [hfl] at hok
    simp only [Bind.bind, Except.bind] at hok
    cases hok
    rw [hsplit, fixLoop_append] at hfl
    cases h1 : fixLoop lines ⟨lines, none⟩ (List.range id ++ [id]) with
    | error e =>
      rw [h1] at hfl
      exact absurd hfl (by simp)
    | ok st2 =>
      rw [h1] at hfl
      rw [fixLoop_append] at h1
      cases h2 : fixLoop lines ⟨lines, none⟩ (List.range id) with
      | error e =>
        rw [h2] at h1
        exact absurd h1 (by simp)
      | ok st1 =>
        rw [h2] at h1
        have hout1 : st1.out[id]? = some line := by
          rw [fixLoop_untouched h2 id
            (fun j hj => Nat.ne_of_lt (List.mem_range.mp hj))]
          exact hline
        have hstep := fixStep_repair st1 hline hpos hstat hprev
        simp only [fixLoop, hstep, Bind.bind, Except.bind] at h1
        cases h1
        have hfinal : stF.out[id]? =
            (if pySlice line 17 21 = pySlice l 17 21 ∧
                pySlice line 23 27 = pySlice l 23 27 then
              modifyAt st1.out id fun cur => rewriteLine cur l
            else st1.out)[id]? := by
          refine fixLoop_untouched hfl id fun j hj => ?_
          obtain ⟨i, _, rfl⟩ := List.mem_map.mp hj
          omega
        constructor
        · intro hres
          rw [hfinal, if_pos hres, getElem?_modifyAt, if_pos rfl, hout1]
          rfl
        · intro hres
          rw [hfinal, if_neg hres]
          exact hout1

/-- C7 witness: the claim theorem applied to a two-line file; with matching
residue fields the hydrogen line is rewritten with chain A and the fixed
trailing text, with a differing residue name it is returned unchanged. -/
theorem fix_haad_chains_repair_correct_witness :
    ([exChainLine, rewriteLine exHLine exChainLine][1]? =
      some (rewriteLine exHLine exChainLine)) ∧
    ([exChainLine, exHLineMis][1]? = some exHLineMis) :=
  ⟨(@fix_haad_chains_repair_correct [exChainLine, exHLine]
      [exChainLine, rewriteLine exHLine exChainLine] 1 exHLine exChainLine
      (by decide) (by decide) (by decide) (by decide) (by decide)).1 (by decide),
   (@fix_haad_chains_repair_correct [exChainLine, exHLineMis]
      [exChainLine, exHLineMis] 1 exHLineMis exChainLine
      (by decide) (by decide) (by decide) (by decide) (by decide)).2 (by decide)⟩

/-! ### Claim C1 (metadata propagation) -/

/-- C1: for every hydrogen accepted by the merge (a bonding partner was
found within distance 2.0, i.e. squared distance at most 4, and its position
key resolved in the index), the atom appended to the source residue carries
the selected flag, is-heteroatom flag, display mode, b-factor and occupancy
of the source atom resolved via the position-key index, not the deserialized
hydrogen's own values. -/
theorem merge_metadata_propagation {st : MergeState} {id : Nat}
    {a0 b src : Atom} {d2 : ℚ} {r : Residue}
    (h0 : (atomsOf st.result)[id]? = some a0)
    (hc : get_closest_heavy_atom_in_residue (modifyFlat st.result id setSymbolH)
      (setSymbolH a0) = (some b, d2))
    (hd : ¬ d2 > 4)
    (hk : lookupIndex st.index (get_position_key b) = some src)
    (hr : st.orig[src.resIdx]? = some r) :
    ∃ st' na, processHydrogen st id = .ok st' ∧
      st'.orig[src.resIdx]? = some
        { r with
          atoms := r.atoms ++ [na],
          bonds := r.bonds ++ [⟨BondKind.covalentSingle, src.aid, na.aid⟩] } ∧
      na.selected = src.selected ∧ na.isHet = src.isHet ∧
      na.displayMode = src.displayMode ∧ na.bfactor = src.bfactor ∧
      na.occupancy = src.occupancy := by
  refine ⟨_, { setSymbolH a0 with
    aid := st.nextAid, displayMode := src.displayMode, isHet := src.isHet,
    selected := src.selected, bfactor := src.bfactor,
    occupancy := src.occupancy, resIdx := src.resIdx },
    processHydrogen_accept h0 hc hd hk, ?_, rfl, rfl, rfl, rfl, rfl⟩
  show (modifyAt st.orig src.resIdx _)[src.resIdx]? = _
  rw [getElem?_modifyAt, if_pos rfl, hr]
  rfl

/-! ### Claim C2 (distance acceptance gate) -/

/-- C2: a hydrogen whose nearest non-hydrogen same-residue partner lies at
squared distance greater than 4 (distance greater than 2.0) is dropped and
the original complex is unchanged; a partner at distance 1.99 (squared
distance 1.99 * 1.99) whose position key resolves adds exactly one atom and
one bond to the source atom's residue. -/
theorem merge_distance_gate :
    (∀ (st : MergeState) (id : Nat) (a0 b : Atom) (d2 : ℚ),
      (atomsOf st.result)[id]? = some a0 →
      get_closest_heavy_atom_in_residue (modifyFlat st.result id setSymbolH)
        (setSymbolH a0) = (some b, d2) →
      d2 > 4 →
      ∃ st', processHydrogen st id = .ok st' ∧ st'.orig = st.orig) ∧
    (∀ (st : MergeState) (id : Nat) (a0 b src : Atom) (r : Residue),
      (atomsOf st.result)[id]? = some a0 →
      get_closest_heavy_atom_in_residue (modifyFlat st.result id setSymbolH)
        (setSymbolH a0) = (some b, (199/100) * (199/100)) →
      lookupIndex st.index (get_position_key b) = some src →
      st.orig[src.resIdx]? = some r →
      ∃ st' r', processHydrogen st id = .ok st' ∧
        st'.orig[src.resIdx]? = some r' ∧
        r'.atoms.length = r.atoms.length + 1 ∧
        r'.bonds.length = r.bonds.length + 1) := by
  constructor
  · intro st id a0 b d2 h0 hc hd
    exact ⟨_, processHydrogen_too_far h0 hc hd, rfl⟩
  · intro st id a0 b src r h0 hc hk hr
    have hd : ¬ ((199/100 : ℚ) * (199/100)) > 4 := by norm_num
    refine ⟨_, { r with
        atoms := r.atoms ++ [{ setSymbolH a0 with
          aid := st.nextAid, displayMode := src.displayMode,
          isHet := src.isHet, selected := src.selected,
          bfactor := src.bfactor, occupancy := src.occupancy,
          resIdx := src.resIdx }],
        bonds := r.bonds ++ [⟨BondKind.covalentSingle, src.aid, st.nextAid⟩] },
      processHydrogen_accept h0 hc hd hk, ?_, by simp, by simp⟩
    show (modifyAt st.orig src.resIdx _)[src.resIdx]? = _
    rw [getElem?_modifyAt, if_pos rfl, hr]
    rfl

/-! ### Claim C3 (dropped hydrogens leave the original untouched) -/

/-- C3: for every in-range hydrogen index the merge step raises no
exception; in each of the three drop cases (no non-hydrogen atom in the
residue, nearest partner farther than 2.0, partner's key absent from the
index) the original complex is unchanged; the key-miss case alone appends a
warning naming the partner's symbol and position, while the other drop cases
and the accept case leave the log unchanged. -/
theorem merge_drop_no_orphan :
    (∀ (st : MergeState) (id : Nat) (a0 : Atom),
      (atomsOf st.result)[id]? = some a0 →
      ∃ st', processHydrogen st id = .ok st') ∧
    (∀ (st : MergeState) (id : Nat) (a0 : Atom) (d : ℚ),
      (atomsOf st.result)[id]? = some a0 →
      get_closest_heavy_atom_in_residue (modifyFlat st.result id setSymbolH)
        (setSymbolH a0) = (none, d) →
      ∃ st', processHydrogen st id = .ok st' ∧ st'.orig = st.orig ∧
        st'.log = st.log) ∧
    (∀ (st : MergeState) (id : Nat) (a0 b : Atom) (d2 : ℚ),
      (atomsOf st.result)[id]? = some a0 →
      get_closest_heavy_atom_in_residue (modifyFlat st.result id setSymbolH)
        (setSymbolH a0) = (some b, d2) →
      d2 > 4 →
      ∃ st', processHydrogen st id = .ok st' ∧ st'.orig = st.orig ∧
        st'.log = st.log) ∧
    (∀ (st : MergeState) (id : Nat) (a0 b : Atom) (d2 : ℚ),
      (atomsOf st.result)[id]? = some a0 →
      get_closest_heavy_atom_in_residue (modifyFlat st.result id setSymbolH)
        (setSymbolH a0) = (some b, d2) →
      ¬ d2 > 4 →
      lookupIndex st.index (get_position_key b) = none →
      ∃ st', processHydrogen st id = .ok st' ∧ st'.orig = st.orig ∧
        st'.log = st.log ++ [⟨a0.serial, b.symbol, b.position⟩]) ∧
    (∀ (st : MergeState) (id : Nat) (a0 b src : Atom) (d2 : ℚ),
      (atomsOf st.result)[id]? = some a0 →
      get_closest_heavy_atom_in_residue (modifyFlat st.result id setSymbolH)
        (setSymbolH a0) = (some b, d2) →
      ¬ d2 > 4 →
      lookupIndex st.index (get_position_key b) = some src →
      ∃ st', processHydrogen st id = .ok st' ∧ st'.log = st.log) := by
  refine ⟨?_, ?_, ?_, ?_, ?_⟩
  · intro st id a0 h0
    rcases hgc : get_closest_heavy_atom_in_residue
      (modifyFlat st.result id setSymbolH) (setSymbolH a0) with ⟨bo, d2⟩
    cases bo with
    | none => exact ⟨_, processHydrogen_no_candidate h0 hgc⟩
    | some b =>
      by_cases hd : d2 > 4
      · exact ⟨_, processHydrogen_too_far h0 hgc hd⟩
      · cases hk : lookupIndex st.index (get_position_key b) with
        | none => exact ⟨_, processHydrogen_key_miss h0 hgc hd hk⟩
        | some src => exact ⟨_, processHydrogen_accept h0 hgc hd hk⟩
  · intro st id a0 d h0 hgc
    exact ⟨_, processHydrogen_no_candidate h0 hgc, rfl, rfl⟩
  · intro st id a0 b d2 h0 hgc hd
    exact ⟨_, processHydrogen_too_far h0 hgc hd, rfl, rfl⟩
  · intro st id a0 b d2 h0 hgc hd hk
    exact ⟨_, processHydrogen_key_miss h0 hgc hd hk, rfl, rfl⟩
  · intro st id a0 b src d2 h0 hgc hd hk
    exact ⟨_, processHydrogen_accept h0 hgc hd hk, rfl⟩

/-! ### Claim C9 (existing atoms of the original complex are untouched) -/

/-- C9: whenever the merge completes, the original complex keeps the same
number of residues, and within each residue every previously present atom
and bond is still present, unchanged, at its old index (the merge only
appends new atoms and bonds to existing residues). -/
theorem merge_preserves_existing_atoms {st st' : MergeState} {ids : List Nat}
    (h : match_and_update st ids = .ok st') :
    st.orig.length = st'.orig.length ∧
    (∀ (i : Nat) r r', st.orig[i]? = some r → st'.orig[i]? = some r' →
      residueExtends r r' ∧
      (∀ j : Nat, j < r.atoms.length → r'.atoms[j]? = r.atoms[j]?) ∧
      (∀ j : Nat, j < r.bonds.length → r'.bonds[j]? = r.bonds[j]?)) := by
  have hext := match_and_update_ok_extends h
  refine ⟨hext.1, fun i r r' h1 h2 => ?_⟩
  have hre := hext.2 i r r' h1 h2
  obtain ⟨⟨ta, ha⟩, ⟨tb, hb⟩⟩ := hre
  refine ⟨⟨⟨ta, ha⟩, ⟨tb, hb⟩⟩, fun j hj => ?_, fun j hj => ?_⟩
  · rw [ha, List.getElem?_append, if_pos hj]
  · rw [hb, List.getElem?_append, if_pos hj]

/-! ### Claim C10 (mutation of the deserialized result complex) -/

/-- C10: the merge mutates the deserialized result complex it is passed:
after a completed merge every atom at an index of the hydrogen list has its
symbol set to H; and in each step whose hydrogen passes the distance gate, a
covalent-single bond from the hydrogen to its partner is added to the
partner's residue of the result complex, where it remains even when the
hydrogen is subsequently dropped because the partner's key is absent from
the index. -/
theorem merge_mutates_result :
    (∀ (st st' : MergeState) (ids : List Nat) (id : Nat) (a0 : Atom),
      match_and_update st ids = .ok st' → id ∈ ids →
      (atomsOf st.result)[id]? = some a0 →
      (atomsOf st'.result)[id]? = some (setSymbolH a0)) ∧
    (∀ (st : MergeState) (id : Nat) (a0 b : Atom) (d2 : ℚ) (r0 : Residue),
      (atomsOf st.result)[id]? = some a0 →
      get_closest_heavy_atom_in_residue (modifyFlat st.result id setSymbolH)
        (setSymbolH a0) = (some b, d2) →
      ¬ d2 > 4 →
      st.result[b.resIdx]? = some r0 →
      ∃ st' r', processHydrogen st id = .ok st' ∧
        st'.result[b.resIdx]? = some r' ∧
        (⟨BondKind.covalentSingle, a0.aid, b.aid⟩ : Bond) ∈ r'.bonds) := by
  constructor
  · intro st st' ids id a0 h hmem h0
    rw [match_and_update_ok_atoms h id, h0]
    simp [hmem]
  · intro st id a0 b d2 r0 h0 hc hd hr0
    have hb1 : ((modifyFlat st.result id setSymbolH)[b.resIdx]?).map
        Residue.bonds = some r0.bonds := by
      rw [getElem?_modifyFlat_bonds, hr0]
      rfl
    cases hr1 : (modifyFlat st.result id setSymbolH)[b.resIdx]? with
    | none => rw [hr1] at hb1; exact absurd hb1 (by simp)
    | some r1 =>
      rw [hr1, Option.map_some'] at hb1
      have hbnd : r1.bonds = r0.bonds := by
        injection hb1
      cases hk : lookupIndex st.index (get_position_key b) with
      | none =>
        refine ⟨_, { r1 with bonds := r1.bonds ++
            [⟨BondKind.covalentSingle, a0.aid, b.aid⟩] },
          processHydrogen_key_miss h0 hc hd hk, ?_, by simp⟩
        show (modifyAt (modifyFlat st.result id setSymbolH) b.resIdx _)[b.resIdx]? = _
        rw [getElem?_modifyAt, if_pos rfl, hr1]
        rfl
      | some src =>
        refine ⟨_, { r1 with bonds := r1.bonds ++
            [⟨BondKind.covalentSingle, a0.aid, b.aid⟩] },
          processHydrogen_accept h0 hc hd hk, ?_, by simp⟩
        show (modifyAt (modifyFlat st.result id setSymbolH) b.resIdx _)[b.resIdx]? = _
        rw [getElem?_modifyAt, if_pos rfl, hr1]
        rfl

set_option maxRecDepth 4000 in
/-- C1 witness: the metadata-propagation theorem applied to a concrete
accepted hydrogen at distance 1.99 whose partner's key resolves to atomO,
whose metadata (display mode 3, het, selected, b-factor 7/2, occupancy 1/4)
differs from the deserialized hydrogen's own defaults. -/
theorem merge_metadata_propagation_witness :
    ∃ st' na, processHydrogen (stEx (199/100)) 1 = .ok st' ∧
      st'.orig[atomO.resIdx]? = some
        { (⟨[atomO], []⟩ : Residue) with
          atoms := [atomO] ++ [na],
          bonds := [] ++ [⟨BondKind.covalentSingle, atomO.aid, na.aid⟩] } ∧
      na.selected = atomO.selected ∧ na.isHet = atomO.isHet ∧
      na.displayMode = atomO.displayMode ∧ na.bfactor = atomO.bfactor ∧
      na.occupancy = atomO.occupancy :=
  @merge_metadata_propagation (stEx (199/100)) 1
    (hAtomEx 11 (199/100)) (partnerC ⟨0, 0, 0⟩) atomO
    (39601/10000) ⟨[atomO], []⟩
    rfl
    (by
      simp [stEx, get_closest_heavy_atom_in_residue, resultEx, modifyFlat,
        modifyAt, setSymbolH, partnerC, hAtomEx, distSq, List.getD]
      norm_num)
    (by norm_num)
    (by with_unfolding_all decide)
    rfl

set_option maxRecDepth 4000 in
/-- C2 witness: the distance-gate theorem applied at concrete partners: a
partner at distance 2.01 (squared 40401/10000) is rejected with the original
complex unchanged, and a partner at distance 1.99 whose key resolves adds
exactly one atom and one bond to atomO's residue. -/
theorem merge_distance_gate_witness :
    (∃ st', processHydrogen (stEx (201/100)) 1 = .ok st' ∧
      st'.orig = (stEx (201/100)).orig) ∧
    (∃ st' r', processHydrogen (stEx (199/100)) 1 = .ok st' ∧
      st'.orig[atomO.resIdx]? = some r' ∧
      r'.atoms.length = (⟨[atomO], []⟩ : Residue).atoms.length + 1 ∧
      r'.bonds.length = (⟨[atomO], []⟩ : Residue).bonds.length + 1) :=
  ⟨merge_distance_gate.1 (stEx (201/100)) 1 (hAtomEx 11 (201/100))
      (partnerC ⟨0, 0, 0⟩) (40401/10000)
      rfl
      (by
        simp [stEx, get_closest_heavy_atom_in_residue, resultEx, modifyFlat,
          modifyAt, setSymbolH, partnerC, hAtomEx, distSq, List.getD]
        norm_num)
      (by norm_num),
   merge_distance_gate.2 (stEx (199/100)) 1 (hAtomEx 11 (199/100))
      (partnerC ⟨0, 0, 0⟩) atomO ⟨[atomO], []⟩
      rfl
      (by
        simp [stEx, get_closest_heavy_atom_in_residue, resultEx, modifyFlat,
          modifyAt, setSymbolH, partnerC, hAtomEx, distSq, List.getD]
        norm_num)
      (by with_unfolding_all decide)
      rfl⟩

set_option maxRecDepth 4000 in
/-- C3 witness: the drop theorem applied at concrete inputs: a lone hydrogen
with no non-hydrogen atom in its residue is dropped with the original
complex and the log unchanged, and a hydrogen whose partner's position key
is absent from the index is dropped with the original complex unchanged and
exactly one warning naming the partner's symbol C and position (5,0,0). -/
theorem merge_drop_no_orphan_witness :
    (∃ st', processHydrogen stLone 0 = .ok st' ∧ st'.orig = stLone.orig ∧
      st'.log = stLone.log) ∧
    (∃ st', processHydrogen stMiss 1 = .ok st' ∧ st'.orig = stMiss.orig ∧
      st'.log = stMiss.log ++
        [⟨(hAtomEx 11 (699/100)).serial, (partnerC ⟨5, 0, 0⟩).symbol,
          (partnerC ⟨5, 0, 0⟩).position⟩]) :=
  ⟨merge_drop_no_orphan.2.1 stLone 0 (hAtomEx 7 0) 100000000 rfl rfl,
   merge_drop_no_orphan.2.2.2.1 stMiss 1 (hAtomEx 11 (699/100))
      (partnerC ⟨5, 0, 0⟩) (39601/10000)
      rfl
      (by
        simp [stMiss, get_closest_heavy_atom_in_residue, resultMiss, modifyFlat,
          modifyAt, setSymbolH, partnerC, hAtomEx, distSq, List.getD]
        norm_num)
      (by norm_num)
      (by with_unfolding_all decide)⟩

set_option maxRecDepth 4000 in
/-- C9 witness: the frame-effect theorem applied to a completed concrete
merge run (a lone dropped hydrogen): the original complex keeps its residue
count and its residue's atoms and bonds. -/
theorem merge_preserves_existing_atoms_witness :
    stLone.orig.length =
      (⟨origEx, [], [⟨[setSymbolH (hAtomEx 7 0)], []⟩], [], 50⟩ :
        MergeState).orig.length ∧
    (∀ (i : Nat) r r', stLone.orig[i]? = some r →
      (⟨origEx, [], [⟨[setSymbolH (hAtomEx 7 0)], []⟩], [], 50⟩ :
        MergeState).orig[i]? = some r' →
      residueExtends r r' ∧
      (∀ j : Nat, j < r.atoms.length → r'.atoms[j]? = r.atoms[j]?) ∧
      (∀ j : Nat, j < r.bonds.length → r'.bonds[j]? = r.bonds[j]?)) :=
  @merge_preserves_existing_atoms stLone
    ⟨origEx, [], [⟨[setSymbolH (hAtomEx 7 0)], []⟩], [], 50⟩ [0]
    (by with_unfolding_all decide)

set_option maxRecDepth 4000 in
/-- C10 witness: the result-mutation theorem applied at concrete inputs: the
completed lone-hydrogen run sets the symbol of the atom at hydrogen index 0
to H, and in the key-miss scenario the covalent-single bond from the
hydrogen (aid 11) to the partner (aid 10) is present in the partner's result
residue even though the hydrogen is dropped. -/
theorem merge_mutates_result_witness :
    (atomsOf (⟨origEx, [], [⟨[setSymbolH (hAtomEx 7 0)], []⟩], [], 50⟩ :
      MergeState).result)[0]? = some (setSymbolH (hAtomEx 7 0)) ∧
    (∃ st' r', processHydrogen stMiss 1 = .ok st' ∧
      st'.result[(partnerC ⟨5, 0, 0⟩).resIdx]? = some r' ∧
      (⟨BondKind.covalentSingle, (hAtomEx 11 (699/100)).aid,
        (partnerC ⟨5, 0, 0⟩).aid⟩ : Bond) ∈ r'.bonds) :=
  ⟨merge_mutates_result.1 stLone
      ⟨origEx, [], [⟨[setSymbolH (hAtomEx 7 0)], []⟩], [], 50⟩ [0] 0
      (hAtomEx 7 0) (by with_unfolding_all decide) (by decide) rfl,
   merge_mutates_result.2 stMiss 1 (hAtomEx 11 (699/100))
      (partnerC ⟨5, 0, 0⟩) (39601/10000) ⟨[partnerC ⟨5, 0, 0⟩,
        hAtomEx 11 (699/100)], []⟩
      rfl
      (by
        simp [stMiss, get_closest_heavy_atom_in_residue, resultMiss, modifyFlat,
          modifyAt, setSymbolH, partnerC, hAtomEx, distSq, List.getD]
        norm_num)
      (by norm_num)
      rfl⟩
